import Mathlib

/-!
Verification of the tio effect library against its specification.

The development shallowly embeds the parts of the source that the checked
properties are about:

* the Cause algebra (src/tio/cause.ts): the inductive failure tree, its
  smoothing constructors, predicates, extractors, map and squash;
* the FiberContext state machine (src/tio/fiber.ts): status, observer list,
  the done transition and unsafeAddObserver;
* the TIO effect syntax (src/tio/tio.ts) together with the Promise-based
  interpreter (src/tio/runtime.ts), modelled as a deterministic timed
  evaluator whose rejection channel carries untyped values, exactly as
  Promise rejections do.

Machine integers are modelled as Nat/Int; JS values crossing the promise
channel are modelled by a small universal domain.
-/

namespace TioProof

/-- FiberId as in the source: a counter value plus a start timestamp. -/
structure FiberId where
  id : Nat
  startTime : Nat
deriving DecidableEq, Repr

/-- The Cause tree from src/tio/cause.ts.  `E` is the typed-error type; the
TS `unknown` type of defects is modelled by a second parameter `D`. -/
inductive Cause (E : Type) (D : Type) where
  | empty : Cause E D
  | fail (error : E) : Cause E D
  | die (defect : D) : Cause E D
  | interrupt (fiberId : FiberId) : Cause E D
  | then_ (left right : Cause E D) : Cause E D
  | both_ (left right : Cause E D) : Cause E D
deriving DecidableEq, Repr

namespace Cause

variable {E D E1 : Type}

/-- `isEmpty(cause)`: the tag test `cause._tag === Empty`. -/
def isEmpty : Cause E D → Bool
  | .empty => true
  | _ => false

/-- `sequential(left, right)`: elide Empty, otherwise build a Then node. -/
def sequential (left right : Cause E D) : Cause E D :=
  if left.isEmpty then right
  else if right.isEmpty then left
  else .then_ left right

/-- `both(left, right)`: elide Empty, otherwise build a Both node. -/
def both (left right : Cause E D) : Cause E D :=
  if left.isEmpty then right
  else if right.isEmpty then left
  else .both_ left right

/-- `isFailure(cause)`: does the tree contain a Fail leaf. -/
def isFailure : Cause E D → Bool
  | .fail _ => true
  | .then_ l r => isFailure l || isFailure r
  | .both_ l r => isFailure l || isFailure r
  | _ => false

/-- `isInterrupted(cause)`: does the tree contain an Interrupt leaf. -/
def isInterrupted : Cause E D → Bool
  | .interrupt _ => true
  | .then_ l r => isInterrupted l || isInterrupted r
  | .both_ l r => isInterrupted l || isInterrupted r
  | _ => false

/-- `isDie(cause)`: does the tree contain a Die leaf. -/
def isDie : Cause E D → Bool
  | .die _ => true
  | .then_ l r => isDie l || isDie r
  | .both_ l r => isDie l || isDie r
  | _ => false

/-- `failures(cause)`: the typed errors of the Fail leaves, left to right. -/
def failures : Cause E D → List E
  | .empty => []
  | .die _ => []
  | .interrupt _ => []
  | .fail e => [e]
  | .then_ l r => failures l ++ failures r
  | .both_ l r => failures l ++ failures r

/-- `defects(cause)`: the defects of the Die leaves, left to right. -/
def defects : Cause E D → List D
  | .empty => []
  | .fail _ => []
  | .interrupt _ => []
  | .die d => [d]
  | .then_ l r => defects l ++ defects r
  | .both_ l r => defects l ++ defects r

/-- `interruptors(cause)`: the fiber ids of the Interrupt leaves, left to right. -/
def interruptors : Cause E D → List FiberId
  | .empty => []
  | .fail _ => []
  | .die _ => []
  | .interrupt fid => [fid]
  | .then_ l r => interruptors l ++ interruptors r
  | .both_ l r => interruptors l ++ interruptors r

/-- `map(cause, f)`: rebuild the tree, applying `f` to Fail leaves and the
smoothing constructors to composite nodes. -/
def map : Cause E D → (E → E1) → Cause E1 D
  | .empty, _ => .empty
  | .fail e, f => .fail (f e)
  | .die d, _ => .die d
  | .interrupt fid, _ => .interrupt fid
  | .then_ l r, f => sequential (map l f) (map r f)
  | .both_ l r, f => both (map l f) (map r f)

/-- The possible results of `squash`: the TS return type
`E | unknown | FiberId | undefined` with `undefined` split off as `Option`. -/
inductive Squashed (E D : Type) where
  | failureVal (e : E)
  | defectVal (d : D)
  | interruptorVal (fid : FiberId)
deriving DecidableEq, Repr

/-- `squash(cause)`: first failure, else first defect, else first
interruptor fiber id, else undefined. -/
def squash (cause : Cause E D) : Option (Squashed E D) :=
  match failures cause with
  | e :: _ => some (.failureVal e)
  | [] =>
    match defects cause with
    | d :: _ => some (.defectVal d)
    | [] =>
      match interruptors cause with
      | fid :: _ => some (.interruptorVal fid)
      | [] => none

/-- A leaf of a cause tree, for stating the preorder-traversal property. -/
inductive CLeaf (E D : Type) where
  | failLeaf (e : E)
  | dieLeaf (d : D)
  | interruptLeaf (fid : FiberId)
deriving DecidableEq, Repr

/-- All leaves of a cause in left-to-right preorder. -/
def causeLeaves : Cause E D → List (CLeaf E D)
  | .empty => []
  | .fail e => [.failLeaf e]
  | .die d => [.dieLeaf d]
  | .interrupt fid => [.interruptLeaf fid]
  | .then_ l r => causeLeaves l ++ causeLeaves r
  | .both_ l r => causeLeaves l ++ causeLeaves r

/-- The typed error of a leaf, when it is a Fail leaf. -/
def CLeaf.failurePart : CLeaf E D → Option E
  | .failLeaf e => some e
  | _ => none

/-- The defect of a leaf, when it is a Die leaf. -/
def CLeaf.defectPart : CLeaf E D → Option D
  | .dieLeaf d => some d
  | _ => none

/-- The fiber id of a leaf, when it is an Interrupt leaf. -/
def CLeaf.interruptorPart : CLeaf E D → Option FiberId
  | .interruptLeaf fid => some fid
  | _ => none

/-- The first Fail error in left-to-right preorder, found directly on the tree. -/
def firstFailure : Cause E D → Option E
  | .fail e => some e
  | .then_ l r => (firstFailure l).orElse fun _ => firstFailure r
  | .both_ l r => (firstFailure l).orElse fun _ => firstFailure r
  | _ => none

/-- The first Die defect in left-to-right preorder, found directly on the tree. -/
def firstDefect : Cause E D → Option D
  | .die d => some d
  | .then_ l r => (firstDefect l).orElse fun _ => firstDefect r
  | .both_ l r => (firstDefect l).orElse fun _ => firstDefect r
  | _ => none

/-- The first Interrupt fiber id in left-to-right preorder, found directly on the tree. -/
def firstInterruptor : Cause E D → Option FiberId
  | .interrupt fid => some fid
  | .then_ l r => (firstInterruptor l).orElse fun _ => firstInterruptor r
  | .both_ l r => (firstInterruptor l).orElse fun _ => firstInterruptor r
  | _ => none

/-- Does the cause contain no Empty node at all. -/
def emptyFree : Cause E D → Bool
  | .empty => false
  | .fail _ => true
  | .die _ => true
  | .interrupt _ => true
  | .then_ l r => emptyFree l && emptyFree r
  | .both_ l r => emptyFree l && emptyFree r

/-- The spec's words for `map`: the same tree structure with `Fail(e)`
replaced by `Fail(f(e))`, every other node kept as it is. -/
def replaceFailLeaves (f : E → E1) : Cause E D → Cause E1 D
  | .empty => .empty
  | .fail e => .fail (f e)
  | .die d => .die d
  | .interrupt fid => .interrupt fid
  | .then_ l r => .then_ (replaceFailLeaves f l) (replaceFailLeaves f r)
  | .both_ l r => .both_ (replaceFailLeaves f l) (replaceFailLeaves f r)

end Cause

/-! ## FiberContext (src/tio/fiber.ts)

The per-fiber mutable record is modelled as an explicit state value; invoking
an observer callback is modelled as emitting a `(callback, exit)` pair, so a
run of `done` returns the successor state together with the list of
invocations it performed, in order.  Callbacks are identified by values of an
arbitrary type `K`. -/

/-- FiberExit: Success with a value or Failure with a Cause. -/
inductive FiberExit (E D A : Type) where
  | success (value : A)
  | failure (cause : Cause E D)
deriving DecidableEq, Repr

/-- FiberStatus: Running, Suspended, or Done carrying the exit. -/
inductive FiberStatus (E D A : Type) where
  | running
  | suspended
  | done (exit : FiberExit E D A)
deriving DecidableEq, Repr

/-- The tag test `this.status._tag === Done`. -/
def FiberStatus.isDone {E D A : Type} : FiberStatus E D A → Bool
  | .done _ => true
  | _ => false

/-- The mutable fields of a FiberContext. -/
structure FiberState (E D A K : Type) where
  status : FiberStatus E D A
  observers : List K
  interrupted : Bool
  interruptible : Bool
deriving DecidableEq, Repr

/-- `done(exit)`: no-op when already Done; otherwise store the exit, clear the
observer list and invoke every callback that was on it, in order.  The second
component lists the invocations performed. -/
def FiberState.done {E D A K : Type} (s : FiberState E D A K) (exit : FiberExit E D A) :
    FiberState E D A K × List (K × FiberExit E D A) :=
  if s.status.isDone then (s, [])
  else ({ s with status := .done exit, observers := [] },
        s.observers.map fun cb => (cb, exit))

/-- `indexOf` followed by `splice(idx, 1)`: remove the first occurrence of
`cb`, leave the list unchanged when `cb` is absent. -/
def removeFirst {K : Type} [DecidableEq K] : List K → K → List K
  | [], _ => []
  | x :: xs, cb => if x = cb then xs else x :: removeFirst xs cb

/-- `unsafeAddObserver(callback)`: when the fiber is already Done, invoke the
callback at once with the stored exit and hand back a no-op unsubscribe;
otherwise append the callback and hand back an unsubscribe that removes its
first occurrence from the observer list at call time.  The components are the
successor state, the invocations performed, and the unsubscribe action on the
observer list. -/
def FiberState.unsafeAddObserver {E D A K : Type} [DecidableEq K]
    (s : FiberState E D A K) (cb : K) :
    FiberState E D A K × List (K × FiberExit E D A) × (List K → List K) :=
  match s.status with
  | .done exit => (s, [(cb, exit)], fun observers => observers)
  | _ =>
    ({ s with observers := s.observers ++ [cb] }, [],
     fun observers => removeFirst observers cb)

/-! ## TIO effect syntax (src/tio/tio.ts) and the Promise runtime
(src/tio/runtime.ts)

JS values crossing the promise channel are untyped; they are modelled by the
universal domain `JSVal`.  A promise either resolves or rejects with such a
value — there is no separate channel for defects or interrupts, which is
exactly what the checked error-handling properties are about.

The runtime is modelled as a deterministic timed evaluator: every node
produces a settlement (`PRes`), a settle time, and the list of side effects
performed, where running the thunk of a `Sync` node at time `t` emits the
event `(t, label)` for the node's label.  Only `Sleep` and `Async` consume
time.  `Promise.race` starts every child and never cancels any of them, so
the race case keeps every child's events and settles with the earliest
child (ties resolved by argument order). -/

/-- A universal domain for the untyped JS values a promise can carry. -/
inductive JSVal where
  | undef
  | nullV
  | num (n : Int)
  | str (s : String)
  | interruptedEx (fid : Nat)
deriving DecidableEq, Repr

/-- A call of a Sync thunk either returns a value or throws one. -/
inductive SyncOutcome where
  | ret (v : JSVal)
  | thrw (v : JSVal)

/-- A settled promise: resolved or rejected, with an untyped value. -/
inductive PRes where
  | resolved (v : JSVal)
  | rejected (v : JSVal)
deriving DecidableEq, Repr

/-- The services record handed to Sync thunks and Async registrations. -/
abbrev Env := List (String × JSVal)

/-- The TIO operation tree.  `sync` carries a label so that runs of its thunk
are observable in the event trace; `async` is a registration that settles
once, after a given delay, with a given settlement. -/
inductive Tio where
  | succeed (a : JSVal)
  | fail (e : JSVal)
  | sync (label : Nat) (f : Env → SyncOutcome)
  | async (register : Env → Nat × PRes)
  | flatMap (child : Tio) (k : JSVal → Tio)
  | foldM (child : Tio) (onError : JSVal → Tio) (onSuccess : JSVal → Tio)
  | race (tios : List Tio)
  | ensuring (child : Tio) (finalizer : Tio)
  | sleep (ms : Nat)

/-- `map(f)` = `flatMap(a => succeed(f(a)))`. -/
def Tio.map (self : Tio) (f : JSVal → JSVal) : Tio :=
  self.flatMap fun a => .succeed (f a)

/-- `orElse(that)` = `foldM(() => that, a => succeed(a))`. -/
def Tio.orElse (self that : Tio) : Tio :=
  self.foldM (fun _ => that) (fun a => .succeed a)

/-- `retry(n)`: `if (n <= 0) return this; return this.orElse(this.retry(n - 1))`. -/
def Tio.retry (self : Tio) : Nat → Tio
  | 0 => self
  | n + 1 => self.orElse (self.retry n)

/-- `as(b)` = `map(() => b)`. -/
def Tio.as (self : Tio) (b : JSVal) : Tio :=
  self.map fun _ => b

/-- The `race` method: `race(...tios)` = `TIO.race(this, ...tios)`. -/
def Tio.raceWith (self : Tio) (tios : List Tio) : Tio :=
  .race (self :: tios)

/-- `timeout(ms)` = `this.race(TIO.sleep(ms).as(null))`. -/
def Tio.timeout (self : Tio) (ms : Nat) : Tio :=
  self.raceWith [(Tio.sleep ms).as .nullV]

/-- The interpreter's result: settlement, settle time, event trace. -/
structure Outcome where
  res : PRes
  time : Nat
  events : List (Nat × Nat)
deriving DecidableEq, Repr

/-- `Promise.race` settlement: the earliest-settling outcome, ties resolved
in favour of the earlier argument. -/
def pickWinner : Outcome → List Outcome → Outcome
  | w, [] => w
  | w, o :: os => if o.time < w.time then pickWinner o os else pickWinner w os

/-- The events of every raced child: no child is ever cancelled. -/
def allEvents (os : List Outcome) : List (Nat × Nat) :=
  os.foldr (fun o acc => o.events ++ acc) []

mutual

/-- `PromiseRuntime.interpret`, case by case from src/tio/runtime.ts:
Succeed resolves, Fail rejects, Sync try/catches its thunk, Async settles its
registration, FlatMap is `then(z => interpret(f(z)))` (rejections pass
through), FoldM is the two-handler `then` (any rejection, typed or not, is
handed to onError), Race is `Promise.race` over all children, Ensuring is
`interpret(child).then(a => interpret(fin).then(() => a)).catch(e =>
interpret(fin).then(() => Promise.reject(e)))` — note the catch also fires
when the child succeeded but the finalizer rejected, running the finalizer a
second time — and Sleep resolves after its delay. -/
def interpret (env : Env) (t : Nat) : Tio → Outcome
  | .succeed a => ⟨.resolved a, t, []⟩
  | .fail e => ⟨.rejected e, t, []⟩
  | .sync label f =>
    match f env with
    | .ret v => ⟨.resolved v, t, [(t, label)]⟩
    | .thrw v => ⟨.rejected v, t, [(t, label)]⟩
  | .async register =>
    ⟨(register env).2, t + (register env).1, []⟩
  | .flatMap child k =>
    let o := interpret env t child
    match o.res with
    | .resolved v =>
      let o2 := interpret env o.time (k v)
      ⟨o2.res, o2.time, o.events ++ o2.events⟩
    | .rejected e => ⟨.rejected e, o.time, o.events⟩
  | .foldM child onError onSuccess =>
    let o := interpret env t child
    match o.res with
    | .resolved v =>
      let o2 := interpret env o.time (onSuccess v)
      ⟨o2.res, o2.time, o.events ++ o2.events⟩
    | .rejected e =>
      let o2 := interpret env o.time (onError e)
      ⟨o2.res, o2.time, o.events ++ o2.events⟩
  | .race tios =>
    match interpretList env t tios with
    | [] => ⟨.rejected .undef, t, []⟩
    | o :: os => ⟨(pickWinner o os).res, (pickWinner o os).time, allEvents (o :: os)⟩
  | .ensuring child finalizer =>
    let oc := interpret env t child
    match oc.res with
    | .resolved a =>
      let o1 := interpret env oc.time finalizer
      match o1.res with
      | .resolved _ => ⟨.resolved a, o1.time, oc.events ++ o1.events⟩
      | .rejected e2 =>
        let o2 := interpret env o1.time finalizer
        match o2.res with
        | .resolved _ => ⟨.rejected e2, o2.time, oc.events ++ o1.events ++ o2.events⟩
        | .rejected e3 => ⟨.rejected e3, o2.time, oc.events ++ o1.events ++ o2.events⟩
    | .rejected e =>
      let o1 := interpret env oc.time finalizer
      match o1.res with
      | .resolved _ => ⟨.rejected e, o1.time, oc.events ++ o1.events⟩
      | .rejected e2 => ⟨.rejected e2, o1.time, oc.events ++ o1.events⟩
  | .sleep ms => ⟨.resolved .undef, t + ms, []⟩

/-- Interpret every raced child from the same start time. -/
def interpretList (env : Env) (t : Nat) : List Tio → List Outcome
  | [] => []
  | x :: xs => interpret env t x :: interpretList env t xs

end

/-! ## Cause algebra properties -/

/-- The tag test recognises exactly the Empty cause. -/
theorem isEmpty_iff {E D : Type} (c : Cause E D) : c.isEmpty = true ↔ c = .empty := by
  cases c <;> simp [Cause.isEmpty]

/-- Claim C8: `Empty` is an identity for the smoothing combinators, and on
non-Empty arguments `sequential` builds a `Then` node and `both` a `Both`
node, each preserving argument order. -/
theorem cause_smoothing_identity {E D : Type} (x l r : Cause E D)
    (hl : l ≠ Cause.empty) (hr : r ≠ Cause.empty) :
    Cause.sequential Cause.empty x = x ∧ Cause.sequential x Cause.empty = x ∧
    Cause.both Cause.empty x = x ∧ Cause.both x Cause.empty = x ∧
    Cause.sequential l r = Cause.then_ l r ∧ Cause.both l r = Cause.both_ l r := by
  have hl' : l.isEmpty = false := by
    cases hb : l.isEmpty
    · rfl
    · exact absurd ((isEmpty_iff l).mp hb) hl
  have hr' : r.isEmpty = false := by
    cases hb : r.isEmpty
    · rfl
    · exact absurd ((isEmpty_iff r).mp hb) hr
  refine ⟨?_, ?_, ?_, ?_, ?_, ?_⟩
  · simp [Cause.sequential, Cause.isEmpty]
  · cases x <;> simp [Cause.sequential, Cause.isEmpty]
  · simp [Cause.both, Cause.isEmpty]
  · cases x <;> simp [Cause.both, Cause.isEmpty]
  · simp [Cause.sequential, hl', hr']
  · simp [Cause.both, hl', hr']

/-- Witness for C8 at concrete causes. -/
theorem cause_smoothing_identity_witness :
    Cause.sequential Cause.empty (Cause.fail 3 : Cause Nat Nat) = Cause.fail 3 ∧
    Cause.sequential (Cause.fail 1) (Cause.die 2 : Cause Nat Nat) =
      Cause.then_ (Cause.fail 1) (Cause.die 2) ∧
    Cause.both (Cause.fail 1) (Cause.die 2 : Cause Nat Nat) =
      Cause.both_ (Cause.fail 1) (Cause.die 2) := by
  have h := cause_smoothing_identity (Cause.fail 3 : Cause Nat Nat)
    (Cause.fail 1) (Cause.die 2) (by decide) (by decide)
  exact ⟨h.1, h.2.2.2.2.1, h.2.2.2.2.2⟩

/-- A disjunction of two emptiness tests matches the emptiness of an append. -/
theorem or_true_iff_append_ne {A : Type} (b c : Bool) (xs ys : List A)
    (hb : b = true ↔ xs ≠ []) (hc : c = true ↔ ys ≠ []) :
    (b || c) = true ↔ xs ++ ys ≠ [] := by
  cases b <;> cases c <;> cases xs <;> cases ys <;> simp_all

/-- Claim C10: each containment predicate agrees with emptiness of the
corresponding extractor. -/
theorem cause_predicates_extractors_agree {E D : Type} (c : Cause E D) :
    (Cause.isFailure c = true ↔ Cause.failures c ≠ []) ∧
    (Cause.isDie c = true ↔ Cause.defects c ≠ []) ∧
    (Cause.isInterrupted c = true ↔ Cause.interruptors c ≠ []) := by
  induction c with
  | empty =>
    refine ⟨?_, ?_, ?_⟩ <;> simp [Cause.isFailure, Cause.isDie, Cause.isInterrupted,
      Cause.failures, Cause.defects, Cause.interruptors]
  | fail e =>
    refine ⟨?_, ?_, ?_⟩ <;> simp [Cause.isFailure, Cause.isDie, Cause.isInterrupted,
      Cause.failures, Cause.defects, Cause.interruptors]
  | die d =>
    refine ⟨?_, ?_, ?_⟩ <;> simp [Cause.isFailure, Cause.isDie, Cause.isInterrupted,
      Cause.failures, Cause.defects, Cause.interruptors]
  | interrupt fid =>
    refine ⟨?_, ?_, ?_⟩ <;> simp [Cause.isFailure, Cause.isDie, Cause.isInterrupted,
      Cause.failures, Cause.defects, Cause.interruptors]
  | then_ l r ihl ihr =>
    exact ⟨or_true_iff_append_ne _ _ _ _ ihl.1 ihr.1,
      or_true_iff_append_ne _ _ _ _ ihl.2.1 ihr.2.1,
      or_true_iff_append_ne _ _ _ _ ihl.2.2 ihr.2.2⟩
  | both_ l r ihl ihr =>
    exact ⟨or_true_iff_append_ne _ _ _ _ ihl.1 ihr.1,
      or_true_iff_append_ne _ _ _ _ ihl.2.1 ihr.2.1,
      or_true_iff_append_ne _ _ _ _ ihl.2.2 ihr.2.2⟩

/-- Claim C9: the extractors list the relevant leaves in left-to-right
preorder, and on `Both(Fail a, Fail b)` the `failures` extractor commutes
with `map`. -/
theorem cause_extractors_preorder {E E1 D : Type} :
    (∀ c : Cause E D,
      Cause.failures c = (Cause.causeLeaves c).filterMap Cause.CLeaf.failurePart ∧
      Cause.defects c = (Cause.causeLeaves c).filterMap Cause.CLeaf.defectPart ∧
      Cause.interruptors c = (Cause.causeLeaves c).filterMap Cause.CLeaf.interruptorPart) ∧
    (∀ a b : E,
      Cause.failures (Cause.both_ (Cause.fail a) (Cause.fail b) : Cause E D) = [a, b]) ∧
    (∀ (a b : E) (f : E → E1),
      Cause.failures (Cause.map (Cause.both_ (Cause.fail a) (Cause.fail b) : Cause E D) f) =
        [f a, f b]) := by
  refine ⟨?_, ?_, ?_⟩
  · intro c
    induction c with
    | empty => simp [Cause.failures, Cause.defects, Cause.interruptors, Cause.causeLeaves]
    | fail e =>
      simp [Cause.failures, Cause.defects, Cause.interruptors, Cause.causeLeaves,
        Cause.CLeaf.failurePart, Cause.CLeaf.defectPart, Cause.CLeaf.interruptorPart]
    | die d =>
      simp [Cause.failures, Cause.defects, Cause.interruptors, Cause.causeLeaves,
        Cause.CLeaf.failurePart, Cause.CLeaf.defectPart, Cause.CLeaf.interruptorPart]
    | interrupt fid =>
      simp [Cause.failures, Cause.defects, Cause.interruptors, Cause.causeLeaves,
        Cause.CLeaf.failurePart, Cause.CLeaf.defectPart, Cause.CLeaf.interruptorPart]
    | then_ l r ihl ihr =>
      simp [Cause.failures, Cause.defects, Cause.interruptors, Cause.causeLeaves,
        List.filterMap_append, ihl.1, ihl.2.1, ihl.2.2, ihr.1, ihr.2.1, ihr.2.2]
    | both_ l r ihl ihr =>
      simp [Cause.failures, Cause.defects, Cause.interruptors, Cause.causeLeaves,
        List.filterMap_append, ihl.1, ihl.2.1, ihl.2.2, ihr.1, ihr.2.1, ihr.2.2]
  · intro a b
    rfl
  · intro a b f
    simp [Cause.map, Cause.both, Cause.isEmpty, Cause.failures]

/-- Option.or written with the orElse the tree search uses. -/
theorem or_eq_orelse {A : Type} (a b : Option A) : a.or b = a.orElse fun _ => b := by
  cases a <;> rfl

/-- In a Then or Both node the first relevant leaf is searched left first. -/
theorem headq_append {A : Type} (xs ys : List A) :
    (xs ++ ys).head? = xs.head?.orElse fun _ => ys.head? := by
  cases xs <;> simp [Option.orElse]

/-- The head of the failures list is the leftmost Fail leaf. -/
theorem failures_head {E D : Type} (c : Cause E D) :
    (Cause.failures c).head? = Cause.firstFailure c := by
  induction c with
  | empty => rfl
  | fail e => rfl
  | die d => rfl
  | interrupt fid => rfl
  | then_ l r ihl ihr => simp [Cause.failures, Cause.firstFailure, headq_append, or_eq_orelse, ihl, ihr]
  | both_ l r ihl ihr => simp [Cause.failures, Cause.firstFailure, headq_append, or_eq_orelse, ihl, ihr]

/-- The head of the defects list is the leftmost Die leaf. -/
theorem defects_head {E D : Type} (c : Cause E D) :
    (Cause.defects c).head? = Cause.firstDefect c := by
  induction c with
  | empty => rfl
  | fail e => rfl
  | die d => rfl
  | interrupt fid => rfl
  | then_ l r ihl ihr => simp [Cause.defects, Cause.firstDefect, headq_append, or_eq_orelse, ihl, ihr]
  | both_ l r ihl ihr => simp [Cause.defects, Cause.firstDefect, headq_append, or_eq_orelse, ihl, ihr]

/-- The head of the interruptors list is the leftmost Interrupt leaf. -/
theorem interruptors_head {E D : Type} (c : Cause E D) :
    (Cause.interruptors c).head? = Cause.firstInterruptor c := by
  induction c with
  | empty => rfl
  | fail e => rfl
  | die d => rfl
  | interrupt fid => rfl
  | then_ l r ihl ihr =>
    simp [Cause.interruptors, Cause.firstInterruptor, headq_append, or_eq_orelse, ihl, ihr]
  | both_ l r ihl ihr =>
    simp [Cause.interruptors, Cause.firstInterruptor, headq_append, or_eq_orelse, ihl, ihr]

/-- Claim C7: `squash` returns the first typed failure of the cause when one
exists, else its first defect, else its first interruptor fiber id, else
nothing, where first means leftmost in preorder. -/
theorem squash_priority {E D : Type} (c : Cause E D) :
    Cause.squash c =
      match Cause.firstFailure c with
      | some e => some (.failureVal e)
      | none =>
        match Cause.firstDefect c with
        | some d => some (.defectVal d)
        | none => (Cause.firstInterruptor c).map Cause.Squashed.interruptorVal := by
  have hf := failures_head c
  have hd := defects_head c
  have hi := interruptors_head c
  unfold Cause.squash
  cases hfc : Cause.failures c with
  | cons e es => rw [hfc] at hf; rw [← hf]; rfl
  | nil =>
    rw [hfc] at hf
    rw [← hf]
    cases hdc : Cause.defects c with
    | cons d ds => rw [hdc] at hd; rw [← hd]; rfl
    | nil =>
      rw [hdc] at hd
      rw [← hd]
      cases hic : Cause.interruptors c with
      | cons i is => rw [hic] at hi; rw [← hi]; rfl
      | nil => rw [hic] at hi; rw [← hi]; rfl

/-- Claim C4, counterexample: `map` does not always preserve the tree shape.
On `Then(Empty, Fail 0)` with the identity function the smoothing
constructor elides the Empty child and the composite node collapses to a
single Fail leaf. -/
theorem cause_map_shape_counterexample :
    Cause.map (Cause.then_ Cause.empty (Cause.fail 0) : Cause Nat Nat) (fun e => e) =
      Cause.fail 0 ∧
    Cause.map (Cause.then_ Cause.empty (Cause.fail 0) : Cause Nat Nat) (fun e => e) ≠
      Cause.then_ Cause.empty (Cause.fail 0) := by
  constructor
  · decide
  · decide

/-- A shape-preserved replacement of a non-Empty cause is never Empty. -/
theorem replaceFail_isEmpty_false {E E1 D : Type} (f : E → E1) (c : Cause E D)
    (h : Cause.emptyFree c = true) : (Cause.replaceFailLeaves f c).isEmpty = false := by
  cases c <;> simp_all [Cause.emptyFree, Cause.replaceFailLeaves, Cause.isEmpty]

/-- Claim C4, amended: `map(c, f)` applies `f` only to Fail leaves, keeps the
identity of Die and Interrupt leaves and the shape of Then and Both nodes,
for every cause that contains no Empty node; with an Empty child under a
composite node the smoothing constructors elide it instead. -/
theorem cause_map_emptyfree_shape {E E1 D : Type} (c : Cause E D) (f : E → E1)
    (h : Cause.emptyFree c = true) :
    Cause.map c f = Cause.replaceFailLeaves f c := by
  induction c with
  | empty => simp [Cause.emptyFree] at h
  | fail e => rfl
  | die d => rfl
  | interrupt fid => rfl
  | then_ l r ihl ihr =>
    simp only [Cause.emptyFree, Bool.and_eq_true] at h
    simp [Cause.map, Cause.sequential, ihl h.1, ihr h.2, Cause.replaceFailLeaves,
      replaceFail_isEmpty_false f l h.1, replaceFail_isEmpty_false f r h.2]
  | both_ l r ihl ihr =>
    simp only [Cause.emptyFree, Bool.and_eq_true] at h
    simp [Cause.map, Cause.both, ihl h.1, ihr h.2, Cause.replaceFailLeaves,
      replaceFail_isEmpty_false f l h.1, replaceFail_isEmpty_false f r h.2]

/-- Witness for the amended C4 at a concrete Empty-free cause. -/
theorem cause_map_emptyfree_shape_witness :
    Cause.emptyFree (Cause.both_ (Cause.fail 1) (Cause.die 2) : Cause Nat Nat) = true ∧
    Cause.map (Cause.both_ (Cause.fail 1) (Cause.die 2) : Cause Nat Nat) (fun e => e + 1) =
      Cause.replaceFailLeaves (fun e => e + 1)
        (Cause.both_ (Cause.fail 1) (Cause.die 2)) :=
  ⟨by decide, cause_map_emptyfree_shape _ _ (by decide)⟩

/-! ## FiberContext properties -/

/-- `done` is a no-op on a state that is already Done. -/
theorem done_of_isDone {E D A K : Type} (s : FiberState E D A K) (e : FiberExit E D A)
    (h : s.status.isDone = true) : FiberState.done s e = (s, []) := by
  simp [FiberState.done, h]

/-- Claim C5: the first `done(exit)` transitions the fiber to Done(exit) and
invokes each registered observer exactly once, in registration order, with
that exit, clearing the observer list; every later `done` is a no-op, so the
stored exit never changes; and `unsafeAddObserver` on a Done fiber invokes
the callback immediately with the stored exit and returns a no-op
unsubscribe. -/
theorem fiber_done_observer_contract {E D A K : Type} [DecidableEq K]
    (s : FiberState E D A K) (e e2 exit0 : FiberExit E D A) (cb : K) :
    (s.status = .done exit0 → FiberState.done s e = (s, [])) ∧
    (s.status.isDone = false →
      FiberState.done s e =
        (⟨.done e, [], s.interrupted, s.interruptible⟩, s.observers.map fun c => (c, e))) ∧
    (s.status.isDone = false →
      (FiberState.done s e).1.status = .done e ∧
      FiberState.done (FiberState.done s e).1 e2 = ((FiberState.done s e).1, [])) ∧
    (s.status = .done exit0 →
      (FiberState.unsafeAddObserver s cb).1 = s ∧
      (FiberState.unsafeAddObserver s cb).2.1 = [(cb, exit0)] ∧
      ∀ observers : List K, (FiberState.unsafeAddObserver s cb).2.2 observers = observers) := by
  refine ⟨?_, ?_, ?_, ?_⟩
  · intro h
    simp [FiberState.done, h, FiberStatus.isDone]
  · intro h
    simp [FiberState.done, h]
  · intro h
    have h1 : (FiberState.done s e).1.status = .done e := by
      simp [FiberState.done, h]
    refine ⟨h1, ?_⟩
    apply done_of_isDone
    rw [h1]
    rfl
  · intro h
    obtain ⟨st, observers, intr, intb⟩ := s
    cases st with
    | done x =>
      have hx : x = exit0 := by
        simpa using h
      subst hx
      exact ⟨rfl, rfl, fun _ => rfl⟩
    | running => simp at h
    | suspended => simp at h

/-- Witness for C5 at a concrete fiber state. -/
theorem fiber_done_observer_contract_witness :
    FiberState.done
      (⟨.running, [10, 20], false, true⟩ : FiberState Nat Nat Nat Nat) (.success 5) =
      (⟨.done (.success 5), [], false, true⟩, [(10, .success 5), (20, .success 5)]) ∧
    FiberState.done
      (⟨.done (.success 7), [], false, true⟩ : FiberState Nat Nat Nat Nat) (.success 9) =
      (⟨.done (.success 7), [], false, true⟩, []) ∧
    (FiberState.unsafeAddObserver
      (⟨.done (.success 7), [], false, true⟩ : FiberState Nat Nat Nat Nat) 3).2.1 =
      [(3, .success 7)] := by
  refine ⟨?_, ?_, ?_⟩
  · exact ((fiber_done_observer_contract
      (⟨.running, [10, 20], false, true⟩ : FiberState Nat Nat Nat Nat)
      (.success 5) (.success 5) (.success 5) 3).2.1 rfl).trans (by decide)
  · exact (fiber_done_observer_contract
      (⟨.done (.success 7), [], false, true⟩ : FiberState Nat Nat Nat Nat)
      (.success 9) (.success 9) (.success 7) 3).1 rfl
  · exact ((fiber_done_observer_contract
      (⟨.done (.success 7), [], false, true⟩ : FiberState Nat Nat Nat Nat)
      (.success 9) (.success 9) (.success 7) 3).2.2.2 rfl).2.1

/-! ## Runtime properties -/

/-- An effect that always fails with the typed error `e`, with one observable
step per attempt: run a Sync thunk, then fail. -/
def failingAttempt (label : Nat) (e : JSVal) : Tio :=
  Tio.flatMap (.sync label fun _ => .ret .undef) fun _ => .fail e

/-- Claim C6: `retry(0)` is the effect itself, `retry(n)` for positive `n` is
`orElse(retry(n-1))`, and an effect that always fails with a typed error,
retried `n` times, is attempted exactly `n+1` times before the failure
surfaces: its per-attempt event appears `n+1` times and the typed rejection
is the final settlement. -/
theorem retry_unfold_and_attempts :
    (∀ self : Tio, Tio.retry self 0 = self) ∧
    (∀ (self : Tio) (n : Nat),
      Tio.retry self (n + 1) = Tio.orElse self (Tio.retry self n)) ∧
    (∀ (env : Env) (t label : Nat) (e : JSVal) (n : Nat),
      interpret env t (Tio.retry (failingAttempt label e) n) =
        ⟨.rejected e, t, List.replicate (n + 1) (t, label)⟩) := by
  refine ⟨fun self => rfl, fun self n => rfl, ?_⟩
  intro env t label e n
  induction n with
  | zero => rfl
  | succ n ih =>
    have step : interpret env t (Tio.retry (failingAttempt label e) (n + 1)) =
        ⟨(interpret env t (Tio.retry (failingAttempt label e) n)).res,
         (interpret env t (Tio.retry (failingAttempt label e) n)).time,
         (t, label) :: (interpret env t (Tio.retry (failingAttempt label e) n)).events⟩ := rfl
    rw [step, ih]
    simp [List.replicate_succ]

/-- Claim C1, divergence of the code from the claim: the Promise runtime's
rejection channel is untyped, so `orElse` runs its fallback on a defect
thrown inside Sync and on an interrupt-shaped rejection just as it does on a
typed failure; the claim (and the spec) say the fallback must run only on
typed `Fail`. -/
theorem orelse_runs_fallback_on_defect_and_interrupt :
    interpret [] 0
      (Tio.orElse (.sync 1 fun _ => .thrw (.str "boom")) (.succeed (.num 2))) =
      ⟨.resolved (.num 2), 0, [(0, 1)]⟩ ∧
    interpret [] 0
      (Tio.orElse (.async fun _ => (0, .rejected (.interruptedEx 1))) (.succeed (.num 2))) =
      ⟨.resolved (.num 2), 0, []⟩ := by
  constructor
  · rfl
  · rfl

/-- Claim C2, divergence of the code from the claim: when the child fails and
the finalizer also fails, the Ensuring chain rejects with the finalizer's
raw rejection alone — the child's error is lost and no `Then` cause is
built; and when the child succeeds but the finalizer fails, the trailing
catch runs the finalizer a second time, so it does not run exactly once. -/
theorem ensuring_promise_loses_child_cause :
    interpret [] 0
      (Tio.ensuring (.fail (.str "primary error"))
        (.sync 9 fun _ => .thrw (.str "cleanup failed"))) =
      ⟨.rejected (.str "cleanup failed"), 0, [(0, 9)]⟩ ∧
    interpret [] 0
      (Tio.ensuring (.succeed (.num 1))
        (.sync 9 fun _ => .thrw (.str "cleanup failed"))) =
      ⟨.rejected (.str "cleanup failed"), 0, [(0, 9), (0, 9)]⟩ := by
  constructor
  · rfl
  · rfl

/-- Claim C3, counterexample: `timeout` is not a loser-interrupting race.
With a child that sleeps 10 ms and then runs a Sync effect, `timeout(5)`
settles with the null sentinel at time 5, yet the loser's effect still runs
at time 10, after the race has settled: the losing side is left running,
not interrupted. -/
theorem timeout_loser_keeps_running :
    interpret [] 0
      (Tio.timeout (Tio.flatMap (.sleep 10) fun _ => .sync 7 fun _ => .ret (.num 1)) 5) =
      ⟨.resolved .nullV, 5, [(10, 7)]⟩ ∧ 5 < 10 := by
  constructor
  · rfl
  · decide

/-- Claim C3, amended: `timeout(ms)` desugars to the plain `race` primitive,
`race(self, sleep(ms).as(null))`, interpreted with `Promise.race`: it
settles like `self` when `self` settles within `ms` milliseconds (ties favour
`self`), and otherwise resolves with the null sentinel at `ms`; the losing
side is not interrupted, so the events of `self` are performed either way. -/
theorem timeout_race_semantics (a : Tio) (ms : Nat) (env : Env) (t : Nat) :
    Tio.timeout a ms = Tio.race [a, Tio.as (.sleep ms) .nullV] ∧
    ((interpret env t a).time ≤ t + ms →
      interpret env t (Tio.timeout a ms) =
        ⟨(interpret env t a).res, (interpret env t a).time, (interpret env t a).events⟩) ∧
    (t + ms < (interpret env t a).time →
      interpret env t (Tio.timeout a ms) =
        ⟨.resolved .nullV, t + ms, (interpret env t a).events⟩) := by
  have key : interpret env t (Tio.timeout a ms) =
      ⟨(pickWinner (interpret env t a) [⟨.resolved .nullV, t + ms, []⟩]).res,
       (pickWinner (interpret env t a) [⟨.resolved .nullV, t + ms, []⟩]).time,
       allEvents [interpret env t a, ⟨.resolved .nullV, t + ms, []⟩]⟩ := rfl
  refine ⟨rfl, ?_, ?_⟩
  · intro h
    have hlt : ¬ (t + ms < (interpret env t a).time) := not_lt.mpr h
    rw [key]
    simp [pickWinner, allEvents, hlt]
  · intro h
    rw [key]
    simp [pickWinner, allEvents, h]

/-- Witness for the amended C3 on an immediately succeeding child. -/
theorem timeout_race_semantics_witness :
    interpret [] 0 (Tio.timeout (.succeed (.num 1)) 5) =
      ⟨.resolved (.num 1), 0, []⟩ := by
  have h := (timeout_race_semantics (.succeed (.num 1)) 5 [] 0).2.1 (by decide)
  exact h.trans (by decide)

end TioProof
